import Mathlib

/-!
Verification of the diagnostic bridge example (examples/src/bin/debug_over_wifi.rs).

The development shallowly embeds the pieces of the program the claims talk
about: the per-session first-read command dispatch and the reset operation,
the bounded frame channel, the bus receiver filter, the streaming loop, the
closing sequence, the access-point manager iteration, and the Debug
rendering of a frame. Machine integers are modelled as Nat with explicit
range hypotheses where the width matters.
-/

namespace DebugOverWifi

/-- Decoded CAN frame as stored in the outbox channel. Mirrors the Rust
struct CanFrame with fields id (u32) and data ([u8; 8]); the payload is a
list of byte values, of length 8 for every frame the receiver constructs. -/
structure CanFrame where
  id : Nat
  data : List Nat
deriving DecidableEq

/-- Action taken after the first socket read of a session, from the
if-let chain in main: a successful read of exactly the single byte 0xFA
triggers the reset path, any other successful read falls to the streaming
loop, a failed read continues back to the accept loop. -/
inductive FirstReadAction where
  | reset
  | streaming
  | abort
deriving DecidableEq

/-- Dispatch on the result of the first socket read. none models
Err(_) from socket_rx.read; some data models Ok(size) with data the bytes
read (so data.length = size, and buffer[0] is data.headD 0 because the
1024-byte buffer is zero-initialized). The code tests size == 1 &&
buffer[0] == 0xFA. -/
def handleFirstRead : Option (List Nat) → FirstReadAction
  | none => .abort
  | some data =>
    if data.length = 1 ∧ data.headD 0 = 0xFA then .reset else .streaming

/-- Observable effects of the reset path and of the other first-read
branches. socketWrite never occurs on the reset path; it is included so
that absence of a response can be stated. -/
inductive ResetEffect where
  | flashWrite (addr : Nat) (bytes : List Nat)
  | log
  | restart
  | socketWrite (bytes : List Nat)
deriving DecidableEq

/-- How the reset operation terminates: a normal software reset, or a
panic out of the unwrap when the flash write fails. -/
inductive ResetOutcome where
  | restarted
  | panicked
deriving DecidableEq

/-- Fixed flash address used by the reset path (flash_addr = 0xd000). -/
def flashAddr : Nat := 0xd000

/-- Buffer written by the reset path: bytes starts as [0u8; 32] and the
for loop sets every byte to 0xFF. -/
def resetBytes : List Nat := List.replicate 32 0xFF

/-- Reset operation, parametrized by whether flash.write returns Ok.
The code runs flash.write(flash_addr, bytes).unwrap(), then println, then
software_reset(); on a write error the unwrap panics before the log and
the reset. -/
def resetOperationR (flashOk : Bool) : List ResetEffect × ResetOutcome :=
  if flashOk then
    ([.flashWrite flashAddr resetBytes, .log, .restart], .restarted)
  else
    ([.flashWrite flashAddr resetBytes], .panicked)

/-- Effects performed between the first read and (when applicable) the
streaming loop, assuming a successful flash write on the reset path. The
streaming branch only logs the received buffer; the abort branch does
nothing and continues to accept. -/
def firstReadEffects (r : Option (List Nat)) : List ResetEffect :=
  match handleFirstRead r with
  | .reset => (resetOperationR true).1
  | .streaming => [.log]
  | .abort => []

/-- Recognizer for flash-write effects. -/
def isFlashWrite : ResetEffect → Bool
  | .flashWrite _ _ => true
  | _ => false

/-- Recognizer for socket-write effects. -/
def isSocketWrite : ResetEffect → Bool
  | .socketWrite _ => true
  | _ => false

theorem handleFirstRead_ne_single :
    ∀ data : List Nat, data ≠ [0xFA] → handleFirstRead (some data) = .streaming := by
  intro data h
  have hne : ¬(data.length = 1 ∧ data.headD 0 = 0xFA) := by
    rintro ⟨hlen, hhead⟩
    apply h
    cases data with
    | nil => simp at hlen
    | cons b t =>
      cases t with
      | nil =>
        simp [List.headD] at hhead
        simp [hhead]
      | cons c u => simp at hlen
  show (if data.length = 1 ∧ data.headD 0 = 0xFA then FirstReadAction.reset
    else FirstReadAction.streaming) = FirstReadAction.streaming
  rw [if_neg hne]

/-- C1: a session whose first read returns exactly the single byte 0xFA
takes the reset path, which performs exactly one flash write, of the
32-byte all-0xFF buffer at address 0xd000, then restarts, with no socket
write; a first read returning any other content enters Streaming and
performs no flash write and no restart. -/
theorem reset_trigger_exactness (data : List Nat) (h : data ≠ [0xFA]) :
    handleFirstRead (some [0xFA]) = .reset ∧
    firstReadEffects (some [0xFA]) =
      [.flashWrite 0xd000 (List.replicate 32 0xFF), .log, .restart] ∧
    (firstReadEffects (some [0xFA])).countP isFlashWrite = 1 ∧
    (firstReadEffects (some [0xFA])).countP isSocketWrite = 0 ∧
    handleFirstRead (some data) = .streaming ∧
    (firstReadEffects (some data)).countP isFlashWrite = 0 ∧
    ResetEffect.restart ∉ firstReadEffects (some data) := by
  have hstream := handleFirstRead_ne_single data h
  refine ⟨by decide, by decide, by decide, by decide, hstream, ?_, ?_⟩
  · simp [firstReadEffects, hstream, isFlashWrite]
  · simp [firstReadEffects, hstream]

/-- C1 witness: instantiation at the concrete first read [0xFA, 0x00]. -/
theorem reset_trigger_exactness_witness :
    handleFirstRead (some [0xFA]) = .reset ∧
    handleFirstRead (some [0xFA, 0x00]) = .streaming := by
  have h := reset_trigger_exactness [0xFA, 0x00] (by decide)
  exact ⟨h.1, h.2.2.2.2.1⟩

/-- C2 counterexample: a successful read of zero bytes (Ok(0), the EOF
case) does not abort the session; it enters Streaming, because the reset
test size == 1 fails and the read was not an Err. -/
theorem firstRead_empty_enters_streaming :
    handleFirstRead (some []) = .streaming ∧
    handleFirstRead (some []) ≠ .abort := by decide

/-- C2 amended: only a failed first read (Err) aborts the session back to
Accept without entering Streaming; a successful zero-byte read instead
enters Streaming. -/
theorem firstRead_err_aborts :
    handleFirstRead none = .abort ∧
    handleFirstRead none ≠ .streaming ∧
    firstReadEffects none = [] ∧
    handleFirstRead (some []) = .streaming := by decide

/-- C7: when the flash write of the reset operation fails, the unwrap
panics: the outcome is a panic and no restart effect is performed; the
restart effect occurs exactly when the flash write succeeds, and the
write itself is attempted in both cases. -/
theorem flash_failure_fatal :
    (resetOperationR false).2 = .panicked ∧
    ResetEffect.restart ∉ (resetOperationR false).1 ∧
    (∀ ok : Bool, ResetEffect.restart ∈ (resetOperationR ok).1 ↔ ok = true) ∧
    (∀ ok : Bool, ((resetOperationR ok).1.countP isFlashWrite = 1)) := by
  refine ⟨by decide, by decide, ?_, ?_⟩ <;> decide

/-- CAN identifier as delivered by the TWAI driver, following the
embedded_can Id type: a standard identifier is at most 11 bits
(StandardId raw fits in Fin 2048), an extended identifier is at most 29
bits (ExtendedId raw fits in Fin 536870912); both bounds are invariants
of the library types that construct them. -/
inductive CanId where
  | standard (raw : Fin 2048)
  | extended (raw : Fin 536870912)
deriving DecidableEq

/-- Frame as produced by rx.receive_async on success: an identifier and a
payload of at most 8 data bytes (the CAN data length code bound, an
invariant of the driver frame type). -/
structure RxFrame where
  id : CanId
  data : List Nat
deriving DecidableEq

/-- Bus receive error, reported and otherwise ignored by the receiver. -/
inductive RxError where
  | busError
deriving DecidableEq

/-- Payload copy performed by the receiver: data starts as [0u8; 8] and
data[0..len] is overwritten by the received bytes, so the result is the
received payload padded with zeros up to 8 bytes (the copy requires
len ≤ 8, which the driver frame guarantees). -/
def copyIntoZeroed8 (d : List Nat) : List Nat :=
  d ++ List.replicate (8 - d.length) 0

/-- One iteration of the receiver task body after receive_async returns:
on error nothing is enqueued; on success a standard-format identifier is
dropped, while an extended-format identifier yields a CanFrame carrying
the raw 29-bit identifier and the zero-padded payload, which is sent into
the channel. The result is the frame enqueued, when any. -/
def receiverStep : Except RxError RxFrame → Option CanFrame
  | .error _ => none
  | .ok f =>
    match f.id with
    | .standard _ => none
    | .extended i => some ⟨i.val, copyIntoZeroed8 f.data⟩

/-- C3: a decoded frame with a standard-format identifier is never
enqueued; a decoded frame with an extended-format identifier is always
enqueued, with a payload of exactly 8 bytes whose first len bytes are the
received payload and whose remaining 8 - len bytes are zero. -/
theorem receiver_filter_policy (s : Fin 2048) (e : Fin 536870912)
    (d : List Nat) (h : d.length ≤ 8) :
    receiverStep (.ok ⟨.standard s, d⟩) = none ∧
    ∃ cf, receiverStep (.ok ⟨.extended e, d⟩) = some cf ∧
      cf.data.length = 8 ∧
      cf.data.take d.length = d ∧
      cf.data.drop d.length = List.replicate (8 - d.length) 0 := by
  refine ⟨rfl, ⟨e.val, copyIntoZeroed8 d⟩, rfl, ?_, ?_, ?_⟩
  · simp [copyIntoZeroed8]
    omega
  · exact List.take_left d _
  · exact List.drop_left d _

/-- C3 witness: the end-to-end scenario identifiers 0x18DAF100 (extended)
and 0x123 (standard) with the two-byte payload "hi". -/
theorem receiver_filter_policy_witness :
    receiverStep (.ok ⟨.standard ⟨0x123, by decide⟩, [0x68, 0x69]⟩) = none ∧
    receiverStep (.ok ⟨.extended ⟨0x18DAF100, by decide⟩, [0x68, 0x69]⟩) =
      some ⟨0x18DAF100, [0x68, 0x69, 0, 0, 0, 0, 0, 0]⟩ := by
  have h := receiver_filter_policy ⟨0x123, by decide⟩ ⟨0x18DAF100, by decide⟩
    [0x68, 0x69] (by decide)
  exact ⟨h.1, by decide⟩

/-- C9: every frame the receiver enqueues has an identifier strictly below
2 ^ 29, because only extended identifiers are accepted and the stored
value is the raw 29-bit extended identifier. -/
theorem receiver_id_bound (r : Except RxError RxFrame) (cf : CanFrame)
    (h : receiverStep r = some cf) : cf.id < 2 ^ 29 := by
  match r with
  | .error e => simp [receiverStep] at h
  | .ok f =>
    match f with
    | ⟨.standard s, d⟩ => simp [receiverStep] at h
    | ⟨.extended i, d⟩ =>
      have hcf : cf = ⟨i.val, copyIntoZeroed8 d⟩ := by
        simpa [receiverStep] using h.symm
      rw [hcf]
      exact i.isLt

/-- C9 witness: the bound instantiated at a concrete extended frame. -/
theorem receiver_id_bound_witness :
    (⟨0x18DAF100, [0, 0, 0, 0, 0, 0, 0, 0]⟩ : CanFrame).id < 2 ^ 29 :=
  receiver_id_bound (.ok ⟨.extended ⟨0x18DAF100, by decide⟩, []⟩)
    ⟨0x18DAF100, [0, 0, 0, 0, 0, 0, 0, 0]⟩ (by decide)

/-- Capacity of the TwaiOutbox channel type, Channel<NoopRawMutex,
CanFrame, 16>. -/
def chanCapacity : Nat := 16

/-- Operations performed on the channel by its producer and consumer. -/
inductive ChanOp where
  | send (f : CanFrame)
  | recv

/-- Modelled from the spec: the embassy_sync bounded channel behind the
TwaiOutbox alias is an external dependency, specified as a bounded FIFO.
queue holds the buffered frames, at most chanCapacity of them; pending
holds, in order, the frames of senders currently suspended on a full
queue (a send on a full channel suspends rather than dropping). -/
structure ChanState where
  queue : List CanFrame
  pending : List CanFrame
deriving DecidableEq

/-- Modelled from the spec: one channel operation. A send enqueues when
there is room and no sender is already waiting, otherwise the sender
suspends with its frame kept in pending; a receive dequeues the oldest
buffered frame and, when a sender is suspended, completes that send into
the freed slot. The second component is the frame delivered to the
consumer, when any. -/
def chanStep (s : ChanState) : ChanOp → ChanState × Option CanFrame
  | .send f =>
    if s.queue.length < chanCapacity ∧ s.pending = [] then
      (⟨s.queue ++ [f], []⟩, none)
    else
      (⟨s.queue, s.pending ++ [f]⟩, none)
  | .recv =>
    match s.queue, s.pending with
    | [], _ => (s, none)
    | g :: rest, [] => (⟨rest, []⟩, some g)
    | g :: rest, p :: ps => (⟨rest ++ [p], ps⟩, some g)

/-- Run of a sequence of channel operations; the second component lists
the frames delivered to the consumer, in delivery order. -/
def chanRun : ChanState → List ChanOp → ChanState × List CanFrame
  | s, [] => (s, [])
  | s, op :: ops =>
    ((chanRun (chanStep s op).1 ops).1,
      (chanStep s op).2.toList ++ (chanRun (chanStep s op).1 ops).2)

/-- Frames submitted by the producer over a run, in submission order. -/
def sentFrames : List ChanOp → List CanFrame
  | [] => []
  | .send f :: ops => f :: sentFrames ops
  | .recv :: ops => sentFrames ops

theorem chanRun_conserve (ops : List ChanOp) : ∀ s : ChanState,
    (chanRun s ops).2 ++ (chanRun s ops).1.queue ++ (chanRun s ops).1.pending
      = s.queue ++ s.pending ++ sentFrames ops := by
  induction ops with
  | nil => intro s; simp [chanRun, sentFrames]
  | cons op ops ih =>
    intro s
    cases op with
    | send f =>
      by_cases h : s.queue.length < chanCapacity ∧ s.pending = []
      · simp only [chanRun, chanStep, if_pos h, sentFrames, Option.toList,
          List.nil_append]
        rw [ih ⟨s.queue ++ [f], []⟩]
        simp [h.2]
      · simp only [chanRun, chanStep, if_neg h, sentFrames, Option.toList,
          List.nil_append]
        rw [ih ⟨s.queue, s.pending ++ [f]⟩]
        simp
    | recv =>
      match hs : s with
      | ⟨[], p⟩ =>
        simp only [chanRun, chanStep, sentFrames, Option.toList,
          List.nil_append]
        rw [ih ⟨[], p⟩]
        simp
      | ⟨g :: rest, []⟩ =>
        simp only [chanRun, chanStep, sentFrames, Option.toList,
          List.singleton_append, List.cons_append, List.nil_append]
        rw [ih ⟨rest, []⟩]
      | ⟨g :: rest, p :: ps⟩ =>
        simp only [chanRun, chanStep, sentFrames, Option.toList,
          List.singleton_append, List.cons_append, List.nil_append]
        rw [ih ⟨rest ++ [p], ps⟩]
        simp

theorem chanRun_bounded (ops : List ChanOp) : ∀ s : ChanState,
    s.queue.length ≤ chanCapacity →
    (chanRun s ops).1.queue.length ≤ chanCapacity := by
  induction ops with
  | nil => intro s h; simp only [chanRun]; exact h
  | cons op ops ih =>
    intro s h
    cases op with
    | send f =>
      by_cases hc : s.queue.length < chanCapacity ∧ s.pending = []
      · simp only [chanRun, chanStep, if_pos hc]
        apply ih
        simp only [List.length_append, List.length_cons, List.length_nil]
        omega
      · simp only [chanRun, chanStep, if_neg hc]
        exact ih ⟨s.queue, s.pending ++ [f]⟩ h
    | recv =>
      match hs : s with
      | ⟨[], p⟩ =>
        simp only [chanRun, chanStep]
        exact ih ⟨[], p⟩ (by simp)
      | ⟨g :: rest, []⟩ =>
        simp only [chanRun, chanStep]
        apply ih
        simp only [List.length_cons] at h
        simp only [List.length_nil]
        omega
      | ⟨g :: rest, p :: ps⟩ =>
        simp only [chanRun, chanStep]
        apply ih
        simp only [List.length_cons] at h
        simp only [List.length_append, List.length_cons, List.length_nil]
        omega

/-- C4: starting from an empty channel, after any sequence of sends and
receives the buffered queue never exceeds the capacity 16; the frames
delivered, followed by the frames still buffered and the frames of
suspended senders, are exactly the frames sent, in submission order (FIFO,
nothing dropped, nothing reordered); and a single send always keeps its
frame, either buffered or suspended, never emitting it elsewhere. -/
theorem channel_bounded_fifo (ops : List ChanOp) :
    (chanRun ⟨[], []⟩ ops).1.queue.length ≤ chanCapacity ∧
    (chanRun ⟨[], []⟩ ops).2 ++ (chanRun ⟨[], []⟩ ops).1.queue
        ++ (chanRun ⟨[], []⟩ ops).1.pending = sentFrames ops ∧
    ∀ (s : ChanState) (f : CanFrame),
      (chanStep s (.send f)).1.queue ++ (chanStep s (.send f)).1.pending
          = s.queue ++ s.pending ++ [f] ∧
      (chanStep s (.send f)).2 = none := by
  refine ⟨chanRun_bounded ops ⟨[], []⟩ (by simp), ?_, ?_⟩
  · have h := chanRun_conserve ops ⟨[], []⟩
    simpa using h
  · intro s f
    by_cases hc : s.queue.length < chanCapacity ∧ s.pending = []
    · constructor
      · simp only [chanStep, if_pos hc]
        simp [hc.2]
      · simp only [chanStep, if_pos hc]
    · constructor
      · simp only [chanStep, if_neg hc]
        simp
      · simp only [chanStep, if_neg hc]

/-- Steps executed after the streaming loop breaks, from the tail of the
accept loop body: two fixed timer delays around socket.close, then
socket.abort, after which the loop continues with the next accept. -/
inductive CloseStep where
  | delayMs (n : Nat)
  | gracefulClose
  | abortConn
deriving DecidableEq

/-- Closing sequence as written in main: Timer::after(1000 ms), close,
Timer::after(1000 ms), abort. -/
def closingSequence : List CloseStep :=
  [.delayMs 1000, .gracefulClose, .delayMs 1000, .abortConn]

/-- Streaming loop over the frames currently queued in the channel. wr i
models the success of the i-th write_all of this session; i is the index
of the next dequeue, q the frames the channel still holds. Each iteration
dequeues one frame, formats it and writes it; on write success the loop
continues, on failure it breaks. The result is (frames dequeued and
written, frames left in the channel, whether the loop broke on a write
failure); on an exhausted queue the loop would suspend in receive, so the
run ends without a break. -/
def streamDrain (wr : Nat → Bool) : Nat → List CanFrame → List CanFrame × List CanFrame × Bool
  | _, [] => ([], [], false)
  | i, f :: q =>
    if wr i then
      ((f :: (streamDrain wr (i + 1) q).1),
        (streamDrain wr (i + 1) q).2.1, (streamDrain wr (i + 1) q).2.2)
    else ([f], q, true)

theorem streamDrain_all_ok (wr : Nat → Bool) :
    ∀ (q : List CanFrame) (i : Nat), (∀ j, j < q.length → wr (i + j) = true) →
    streamDrain wr i q = (q, [], false) := by
  intro q
  induction q with
  | nil => intro i h; rfl
  | cons f t ih =>
    intro i h
    have h0 : wr i = true := by
      have := h 0 (by simp)
      simpa using this
    have ht : streamDrain wr (i + 1) t = (t, [], false) := by
      apply ih
      intro j hj
      have hw := h (j + 1) (by simpa using Nat.succ_lt_succ hj)
      have he : i + 1 + j = i + (j + 1) := by omega
      rw [he]
      exact hw
    simp [streamDrain, h0, ht]

theorem streamDrain_stops (wr : Nat → Bool) :
    ∀ (q : List CanFrame) (k i : Nat),
    (∀ j, j < k → wr (i + j) = true) → wr (i + k) = false → k < q.length →
    streamDrain wr i q = (q.take (k + 1), q.drop (k + 1), true) := by
  intro q
  induction q with
  | nil => intro k i _ _ hlen; simp at hlen
  | cons f t ih =>
    intro k i hok hfail hlen
    cases k with
    | zero =>
      have h0 : wr i = false := by simpa using hfail
      simp [streamDrain, h0]
    | succ k =>
      have h0 : wr i = true := by
        have := hok 0 (Nat.succ_pos k)
        simpa using this
      have ht : streamDrain wr (i + 1) t = (t.take (k + 1), t.drop (k + 1), true) := by
        apply ih
        · intro j hj
          have hw := hok (j + 1) (Nat.succ_lt_succ hj)
          have he : i + 1 + j = i + (j + 1) := by omega
          rw [he]
          exact hw
        · have he : i + 1 + k = i + (k + 1) := by omega
          rw [he]
          exact hfail
        · simpa using Nat.lt_of_succ_lt_succ (by simpa using hlen)
      simp [streamDrain, h0, ht]

theorem streamDrain_break_has_failure (wr : Nat → Bool) :
    ∀ (q : List CanFrame) (i : Nat), (streamDrain wr i q).2.2 = true →
    ∃ j, j < q.length ∧ wr (i + j) = false := by
  intro q
  induction q with
  | nil => intro i h; simp [streamDrain] at h
  | cons f t ih =>
    intro i h
    by_cases h0 : wr i = true
    · rw [streamDrain, if_pos h0] at h
      obtain ⟨j, hj, hw⟩ := ih (i + 1) h
      refine ⟨j + 1, by simpa using Nat.succ_lt_succ hj, ?_⟩
      have he : i + (j + 1) = i + 1 + j := by omega
      rw [he]
      exact hw
    · exact ⟨0, by simp, by simpa using eq_false_of_ne_true h0⟩

/-- C5: once streaming, every frame dequeued from the channel is written
to the socket and the loop never breaks while writes succeed: if all
writes of the run succeed, every queued frame is dequeued and written and
the loop does not exit. The loop breaks exactly when some write within
the queued frames fails, and after a break the session runs the fixed
closing sequence, a 1000 ms delay, a graceful close, a 1000 ms delay and
a forced abort, before the outer loop returns to accept. -/
theorem streaming_termination (q : List CanFrame) (wr : Nat → Bool) :
    ((∀ j, j < q.length → wr j = true) → streamDrain wr 0 q = (q, [], false)) ∧
    ((streamDrain wr 0 q).2.2 = true → ∃ j, j < q.length ∧ wr j = false) ∧
    ((∃ j, j < q.length ∧ wr j = false) → (streamDrain wr 0 q).2.2 = true) ∧
    closingSequence = [.delayMs 1000, .gracefulClose, .delayMs 1000, .abortConn] := by
  refine ⟨?_, ?_, ?_, rfl⟩
  · intro h
    apply streamDrain_all_ok
    intro j hj
    simpa using h j hj
  · intro h
    obtain ⟨j, hj, hw⟩ := streamDrain_break_has_failure wr q 0 h
    exact ⟨j, hj, by simpa using hw⟩
  · rintro ⟨j, hj, hw⟩
    have hex : ∃ m, wr m = false := ⟨j, hw⟩
    have hk := Nat.find_spec hex
    have hkmin : ∀ m, m < Nat.find hex → ¬wr m = false :=
      fun m hm => Nat.find_min hex hm
    have hkle : Nat.find hex ≤ j := Nat.find_min' hex hw
    have hstop := streamDrain_stops wr q (Nat.find hex) 0 ?_ ?_ ?_
    · rw [hstop]
    · intro m hm
      have := hkmin m hm
      simpa using this
    · simpa using hk
    · omega

/-- C5 witness: a two-frame queue whose second write fails; the loop
breaks, and with all writes succeeding it forwards everything. -/
theorem streaming_termination_witness :
    streamDrain (fun j => decide (j < 1)) 0
      [⟨1, List.replicate 8 0⟩, ⟨2, List.replicate 8 0⟩, ⟨3, List.replicate 8 0⟩]
      = ([⟨1, List.replicate 8 0⟩, ⟨2, List.replicate 8 0⟩], [⟨3, List.replicate 8 0⟩], true) ∧
    streamDrain (fun _ => true) 0 [⟨1, List.replicate 8 0⟩]
      = ([⟨1, List.replicate 8 0⟩], [], false) := by
  constructor
  · have h := (streaming_termination
      [⟨1, List.replicate 8 0⟩, ⟨2, List.replicate 8 0⟩, ⟨3, List.replicate 8 0⟩]
      (fun j => decide (j < 1))).2.2.1 ⟨1, by decide, by decide⟩
    decide
  · exact (streaming_termination [⟨1, List.replicate 8 0⟩] (fun _ => true)).1
      (by decide)

/-- C10: when the k-th write of the streaming loop fails (all earlier
writes having succeeded) with more than k frames queued, the loop has
dequeued exactly the first k + 1 frames, the failing frame included,
which are gone for good, and the remaining frames stay in the channel in
order for the next session; no further frame is consumed. -/
theorem write_failure_frame_effect (q : List CanFrame) (wr : Nat → Bool)
    (k : Nat) (hok : ∀ j, j < k → wr j = true) (hfail : wr k = false)
    (hlen : k < q.length) :
    streamDrain wr 0 q = (q.take (k + 1), q.drop (k + 1), true) := by
  apply streamDrain_stops
  · intro j hj
    simpa using hok j hj
  · simpa using hfail
  · exact hlen

/-- C10 witness: a three-frame queue whose second write fails; the first
two frames are consumed, the third stays queued. -/
theorem write_failure_frame_effect_witness :
    streamDrain (fun j => decide (j = 0)) 0
      [⟨5, List.replicate 8 0⟩, ⟨6, List.replicate 8 0⟩, ⟨7, List.replicate 8 1⟩]
      = ([⟨5, List.replicate 8 0⟩, ⟨6, List.replicate 8 0⟩], [⟨7, List.replicate 8 1⟩], true) := by
  have h := write_failure_frame_effect
    [⟨5, List.replicate 8 0⟩, ⟨6, List.replicate 8 0⟩, ⟨7, List.replicate 8 1⟩]
    (fun j => decide (j = 0)) 1 (by decide) (by decide) (by decide)
  simpa using h

/-- Authentication methods relevant to the AP configuration. -/
inductive AuthMethod where
  | wpa2Personal
  | noAuth
deriving DecidableEq

/-- Protocol flags from the configured protocol set
P802D11B | P802D11BG | P802D11BGN. -/
inductive WifiProtocol where
  | p802d11b
  | p802d11bg
  | p802d11bgn
deriving DecidableEq

/-- Access-point configuration record, mirroring the
AccessPointConfiguration value built in the connection task. -/
structure ApConfig where
  ssid : String
  ssidHidden : Bool
  channel : Nat
  authMethod : AuthMethod
  password : String
  maxConnections : Nat
  protocols : List WifiProtocol
deriving DecidableEq

/-- Fixed configuration applied by the connection task. -/
def clientConfig : ApConfig :=
  { ssid := "ion-esp-diag"
    ssidHidden := false
    channel := 1
    authMethod := .wpa2Personal
    password := "p@ssw0rd"
    maxConnections := 5
    protocols := [.p802d11b, .p802d11bg, .p802d11bgn] }

/-- Wifi state as sampled by get_wifi_state at the top of the loop; only
equality with ApStarted matters to the task. -/
inductive WifiStateM where
  | apStarted
  | apStopped
  | invalid
deriving DecidableEq

/-- Effects of one iteration of the connection task loop. -/
inductive ApEffect where
  | waitForApStop
  | delayMs (n : Nat)
  | setConfig (c : ApConfig)
  | startWifi
deriving DecidableEq

/-- Whether the iteration runs to completion or panics out of an unwrap. -/
inductive ApOutcome where
  | continued
  | panicked
deriving DecidableEq

/-- One iteration of the connection task loop. When the sampled wifi
state is ApStarted the task first suspends on the ApStop event, then
sleeps 5000 ms. Then, unless is_started reported Ok(true), it applies
clientConfig and issues start; set_configuration and start are both
unwrapped, so a failure of either (cfgOk, startOk) panics the task. -/
def connectionIteration (state : WifiStateM) (isStarted : Bool)
    (cfgOk startOk : Bool) : List ApEffect × ApOutcome :=
  let pre : List ApEffect :=
    if state = .apStarted then [.waitForApStop, .delayMs 5000] else []
  if isStarted then (pre, .continued)
  else if cfgOk = false then (pre ++ [.setConfig clientConfig], .panicked)
  else if startOk = false then
    (pre ++ [.setConfig clientConfig, .startWifi], .panicked)
  else (pre ++ [.setConfig clientConfig, .startWifi], .continued)

/-- C6: in an iteration that starts with the state Started, the task
waits for the stop event, sleeps the fixed 5000 ms settle delay, and
then, the controller reporting not-started, applies the fixed
configuration, channel 1, WPA2-Personal, at most 5 connections, the
802.11 b, b/g and b/g/n protocol set, and issues start, re-advertising
the AP after every stop; if either the configuration or the start call
fails, the iteration panics, which is fatal to the task. -/
theorem ap_self_healing (cfgOk startOk : Bool)
    (h : cfgOk = false ∨ startOk = false) :
    (connectionIteration .apStarted false true true).1
      = [.waitForApStop, .delayMs 5000, .setConfig clientConfig, .startWifi] ∧
    (connectionIteration .apStarted false true true).2 = .continued ∧
    clientConfig.channel = 1 ∧
    clientConfig.authMethod = .wpa2Personal ∧
    clientConfig.maxConnections = 5 ∧
    clientConfig.protocols = [.p802d11b, .p802d11bg, .p802d11bgn] ∧
    (connectionIteration .apStarted true cfgOk startOk).1
      = [.waitForApStop, .delayMs 5000] ∧
    (connectionIteration .apStarted false cfgOk startOk).2 = .panicked := by
  refine ⟨by decide, by decide, by decide, by decide, by decide, by decide, ?_, ?_⟩
  · cases cfgOk <;> cases startOk <;> decide
  · rcases h with h | h <;> rw [h]
    · cases startOk <;> decide
    · cases cfgOk <;> decide

/-- C6 witness: a failing start call with a succeeding configuration. -/
theorem ap_self_healing_witness :
    (connectionIteration .apStarted false true true).1
      = [.waitForApStop, .delayMs 5000, .setConfig clientConfig, .startWifi] ∧
    (connectionIteration .apStarted false true false).2 = .panicked := by
  have h := ap_self_healing true false (Or.inr rfl)
  exact ⟨h.1, h.2.2.2.2.2.2.2⟩

/-- Decimal digit characters of n, most significant first, as Rust
formats an unsigned integer with Display ("0" for zero). -/
def natDigits (n : Nat) : List Char :=
  if n < 10 then [Nat.digitChar n]
  else natDigits (n / 10) ++ [Nat.digitChar (n % 10)]
decreasing_by
  exact Nat.div_lt_self (by omega) (by omega)

/-- Rendering of the data array by the derived Debug implementation,
without the surrounding brackets: the elements separated by a comma and
one space. -/
def renderData : List Nat → List Char
  | [] => []
  | [b] => natDigits b
  | b :: c :: t => natDigits b ++ ", ".toList ++ renderData (c :: t)

/-- Rendering of writeln!("{:?}", frame) for the derived Debug instance
of CanFrame: the struct name, the two named fields with the id in decimal
and the data as a bracketed array, and the trailing newline appended by
writeln. -/
def debugRenderChars (f : CanFrame) : List Char :=
  "CanFrame \x7b id: ".toList ++ natDigits f.id ++ ", data: [".toList
    ++ renderData f.data ++ "] \x7d\n".toList

theorem natDigits_length_le :
    ∀ (k n : Nat), n < 10 ^ (k + 1) → (natDigits n).length ≤ k + 1 := by
  intro k
  induction k with
  | zero =>
    intro n h
    rw [natDigits, if_pos (by simpa using h)]
    simp
  | succ k ih =>
    intro n h
    by_cases h10 : n < 10
    · rw [natDigits, if_pos h10]
      simp
    · rw [natDigits, if_neg h10]
      have hdiv : n / 10 < 10 ^ (k + 1) := by
        rw [Nat.div_lt_iff_lt_mul (by omega)]
        calc n < 10 ^ (k + 1 + 1) := h
        _ = 10 ^ (k + 1) * 10 := by ring
      have := ih (n / 10) hdiv
      simp only [List.length_append, List.length_cons, List.length_nil]
      omega

theorem renderData_length_le (l : List Nat) (h : ∀ b ∈ l, b < 256) :
    (renderData l).length ≤ 5 * l.length := by
  induction l with
  | nil => simp [renderData]
  | cons b t ih =>
    have hb : (natDigits b).length ≤ 3 := by
      apply natDigits_length_le 2
      have := h b (by simp)
      omega
    cases t with
    | nil =>
      simp only [renderData, List.length_cons, List.length_nil]
      omega
    | cons c u =>
      have ht := ih (fun x hx => h x (List.mem_cons_of_mem b hx))
      simp only [renderData] at ht ⊢
      simp only [List.length_append, List.length_cons] at ht ⊢
      have : (", ".toList).length = 2 := by decide
      rw [this]
      omega

/-- C8: for every frame with a 32-bit identifier and an 8-byte payload,
the Debug rendering plus the newline is at most 80 bytes long, so it
always fits the heapless String of capacity 80 and the unwrap on writeln
never panics. -/
theorem debug_render_fits (f : CanFrame) (h1 : f.id < 2 ^ 32)
    (h2 : f.data.length = 8) (h3 : ∀ b ∈ f.data, b < 256) :
    (debugRenderChars f).length ≤ 80 := by
  have hid : (natDigits f.id).length ≤ 10 := by
    apply natDigits_length_le 9
    have : (2 : Nat) ^ 32 < 10 ^ 10 := by norm_num
    omega
  have hdata : (renderData f.data).length ≤ 40 := by
    have := renderData_length_le f.data h3
    rw [h2] at this
    omega
  simp only [debugRenderChars, List.length_append]
  have hA : ("CanFrame \x7b id: ".toList).length = 15 := by decide
  have hB : (", data: [".toList).length = 9 := by decide
  have hC : ("] \x7d\n".toList).length = 4 := by decide
  rw [hA, hB, hC]
  omega

/-- C8 witness: the largest identifier and payload bytes. -/
theorem debug_render_fits_witness :
    (debugRenderChars ⟨4294967295, List.replicate 8 255⟩).length ≤ 80 :=
  debug_render_fits ⟨4294967295, List.replicate 8 255⟩ (by decide) (by decide)
    (by decide)

end DebugOverWifi
